import Mathlib

/-!
Verification of the textual parameter kind (src/src/params/string.rs).

The Rust value cell is an `Arc<Mutex<String>>`. We embed it as the pair
of fields `value : String` (the cell contents) and `locked : Bool`
(whether the current call chain holds the mutex). `std::sync::Mutex` is
not reentrant: locking a mutex already held by the same call chain does
not succeed (it deadlocks or panics), so `lockValue` on a held lock is
embedded as `none`. Every operation that touches the cell therefore
returns an `Option`: `none` means the operation never completes
normally (self-deadlock), `some` carries the result and the updated
parameter state.

Mutating operations additionally return a `List String`: the log of
arguments with which the `value_changed` callback was invoked during
the call (the callback itself is external code; what the program
controls is whether and with what argument it is called).

`f32` values are embedded as `Rat`. The textual parameter kind performs
no floating-point arithmetic: the only normalized values it produces
are the literal constant `0.0`, and every incoming normalized value is
ignored, so the embedding is exact.
-/

namespace StringParams

/-- Modelled from the spec: the external bit-flag set (`ParamFlags`,
declared outside src/). The spec names three values relevant here:
HIDDEN, HIDE_IN_GENERIC_UI and NON_AUTOMATABLE, combined with
`union`/`insert` (bitwise or). The spec does not specify the contents
of `ParamFlags::default()` beyond being a flag set; we take it empty,
which is the weakest choice: the constructor explicitly unions in all
three flags regardless. -/
structure ParamFlags where
  non_automatable : Bool
  hidden : Bool
  hide_in_generic_ui : Bool
deriving DecidableEq, Repr

def ParamFlags.union (a b : ParamFlags) : ParamFlags :=
  ⟨a.non_automatable || b.non_automatable, a.hidden || b.hidden,
    a.hide_in_generic_ui || b.hide_in_generic_ui⟩

/-- Modelled from the spec: bitflags `insert` adds the given bits in place;
in the fluent builder we return the updated set. -/
def ParamFlags.insert (a b : ParamFlags) : ParamFlags :=
  a.union b

def ParamFlags.default : ParamFlags := ⟨false, false, false⟩

def ParamFlags.NON_AUTOMATABLE : ParamFlags := ⟨true, false, false⟩

def ParamFlags.HIDDEN : ParamFlags := ⟨false, true, false⟩

def ParamFlags.HIDE_IN_GENERIC_UI : ParamFlags := ⟨false, false, true⟩

/-- The `StringParam` struct. `value`/`locked` embed the
`Arc<Mutex<String>>` cell as described in the file header. The
`value_changed` callback returns `()` in Rust; only its presence and
the arguments passed to it are observable, and calls to it are logged
by the mutating operations. -/
structure StringParam where
  value : String
  locked : Bool
  default : String
  flags : ParamFlags
  value_changed : Option (String → Unit)
  name : String
  unit : String
  value_to_string : Option (String → String)
  string_to_value : Option (String → Option Int)

/-- MutexGuard acquisition: `self.value.lock().unwrap()`. Succeeds only
when the current call chain does not already hold the lock (std Mutex
is not reentrant); yields the cell contents readable/writable through
the guard. -/
def lockValue (p : StringParam) : Option (String × StringParam) :=
  if p.locked then none else some (p.value, { p with locked := true })

/-- Dropping the MutexGuard releases the lock. -/
def unlockValue (p : StringParam) : StringParam :=
  { p with locked := false }

/-- Param::modulated_plain_value: `self.value.as_ref().lock().unwrap().clone()` —
lock, clone, drop the temporary guard. `StringParam::value()` delegates
to this. -/
def StringParam.modulated_plain_value (p : StringParam) : Option (String × StringParam) :=
  match lockValue p with
  | none => none
  | some (v, p1) => some (v, unlockValue p1)

/-- Param::unmodulated_plain_value: same body as `modulated_plain_value`. -/
def StringParam.unmodulated_plain_value (p : StringParam) : Option (String × StringParam) :=
  match lockValue p with
  | none => none
  | some (v, p1) => some (v, unlockValue p1)

/-- Param::modulated_normalized_value: the constant `0.0`. -/
def StringParam.modulated_normalized_value (_p : StringParam) : Rat := 0

/-- Param::unmodulated_normalized_value: the constant `0.0`. -/
def StringParam.unmodulated_normalized_value (_p : StringParam) : Rat := 0

/-- Param::default_plain_value: `self.default.clone()`. -/
def StringParam.default_plain_value (p : StringParam) : String :=
  p.default

/-- Param::step_count: `None`. -/
def StringParam.step_count (_p : StringParam) : Option Nat := none

/-- Param::preview_normalized: ignores its argument and returns the
constant `0.0`. -/
def StringParam.preview_normalized (_p : StringParam) (_plain : String) : Rat := 0

/-- Param::preview_plain: ignores the normalized argument and returns
`self.value.as_ref().lock().unwrap().clone()`. -/
def StringParam.preview_plain (p : StringParam) (_normalized : Rat) : Option (String × StringParam) :=
  match lockValue p with
  | none => none
  | some (v, p1) => some (v, unlockValue p1)

/-- Param::string_to_normalized_value: `None` for every input string.
The `Option` here is the Rust `Option<f32>` return value, not the
deadlock monad: the method touches no lock. -/
def StringParam.string_to_normalized_value (_p : StringParam) (_string : String) : Option Rat :=
  none

/-- Param::normalized_value_to_string: maps normalized to plain via
`preview_plain`, then matches on `(value_to_string, include_unit)`;
`format!` concatenation is `String.append`. -/
def StringParam.normalized_value_to_string (p : StringParam) (normalized : Rat)
    (include_unit : Bool) : Option (String × StringParam) :=
  match p.preview_plain normalized with
  | none => none
  | some (value, p1) =>
    match p1.value_to_string, include_unit with
    | some f, true => some (f value ++ p1.unit, p1)
    | some f, false => some (f value, p1)
    | none, true => some (value ++ p1.unit, p1)
    | none, false => some (value, p1)

/-- ParamMut::set_plain_value. Follows the source line by line:
`self.value()` (lock, clone, unlock); if different, acquire the guard
`h` and overwrite through it; then, with `h` still live, if a callback
is present the code evaluates `self.value.as_ref().lock().unwrap().clone()`
as the callback argument — a second acquisition of the same mutex by
the same call chain, hence `lockValue` on a state whose lock is held.
Returns `(changed, final state, callback-argument log)`. -/
def StringParam.set_plain_value (p : StringParam) (plain : String) :
    Option (Bool × StringParam × List String) :=
  match p.modulated_plain_value with
  | none => none
  | some (cur, p1) =>
    if cur ≠ plain then
      match lockValue p1 with
      | none => none
      | some (_, p2) =>
        let p3 : StringParam := { p2 with value := plain }
        match p3.value_changed with
        | some _ =>
          match lockValue p3 with
          | none => none
          | some (arg, p4) => some (true, unlockValue (unlockValue p4), [arg])
        | none => some (true, unlockValue p3, [])
    else
      some (false, p1, [])

/-- ParamMut::set_normalized_value: converts normalized to plain via
`preview_plain`, then calls `set_plain_value`. -/
def StringParam.set_normalized_value (p : StringParam) (normalized : Rat) :
    Option (Bool × StringParam × List String) :=
  match p.preview_plain normalized with
  | none => none
  | some (plain, p1) => p1.set_plain_value plain

/-- ParamMut::modulate_value: no-op, returns `false`; the parameter
state is untouched. -/
def StringParam.modulate_value (p : StringParam) (_modulation_offset : Rat) :
    Bool × StringParam :=
  (false, p)

/-- StringParam::new. -/
def StringParam.new (name : String) (default : String) : StringParam :=
  { default := default
    value := default
    locked := false
    flags := ((ParamFlags.default.union ParamFlags.HIDDEN).union
        ParamFlags.HIDE_IN_GENERIC_UI).union ParamFlags.NON_AUTOMATABLE
    value_changed := none
    name := name
    unit := ""
    value_to_string := none
    string_to_value := none }

/-- StringParam::with_callback. -/
def StringParam.with_callback (p : StringParam) (callback : String → Unit) : StringParam :=
  { p with value_changed := some callback }

/-- StringParam::with_unit. -/
def StringParam.with_unit (p : StringParam) (unit : String) : StringParam :=
  { p with unit := unit }

/-- StringParam::with_value_to_string. -/
def StringParam.with_value_to_string (p : StringParam) (callback : String → String) :
    StringParam :=
  { p with value_to_string := some callback }

/-- StringParam::non_automatable: `self.flags.insert(ParamFlags::NON_AUTOMATABLE)`. -/
def StringParam.non_automatable (p : StringParam) : StringParam :=
  { p with flags := p.flags.insert ParamFlags.NON_AUTOMATABLE }

/-- StringParam::hide: `self.flags.insert(ParamFlags::HIDDEN)`. -/
def StringParam.hide (p : StringParam) : StringParam :=
  { p with flags := p.flags.insert ParamFlags.HIDDEN }

/-- StringParam::hide_in_generic_ui: `self.flags.insert(ParamFlags::HIDE_IN_GENERIC_UI)`. -/
def StringParam.hide_in_generic_ui (p : StringParam) : StringParam :=
  { p with flags := p.flags.insert ParamFlags.HIDE_IN_GENERIC_UI }

/-- One fluent-builder configuration call, as applied between
`StringParam::new` and publication. -/
inductive BuilderStep where
  | withCallback (f : String → Unit)
  | withUnit (u : String)
  | withValueToString (f : String → String)
  | nonAutomatable
  | hideCall
  | hideInGenericUiCall

/-- Apply one builder call to the parameter under construction. -/
def applyBuilder (p : StringParam) : BuilderStep → StringParam
  | .withCallback f => p.with_callback f
  | .withUnit u => p.with_unit u
  | .withValueToString f => p.with_value_to_string f
  | .nonAutomatable => p.non_automatable
  | .hideCall => p.hide
  | .hideInGenericUiCall => p.hide_in_generic_ui

/-- Apply a chain of fluent-builder calls in order. -/
def applyBuilders (p : StringParam) : List BuilderStep → StringParam
  | [] => p
  | s :: rest => applyBuilders (applyBuilder p s) rest

/-- The three flags of interest are all set. -/
def threeFlagsSet (p : StringParam) : Prop :=
  p.flags.non_automatable = true ∧ p.flags.hidden = true ∧
    p.flags.hide_in_generic_ui = true

instance (p : StringParam) : Decidable (threeFlagsSet p) := by
  unfold threeFlagsSet
  infer_instance

/-- Run a sequence of `set_plain_value` calls in order; `none` as soon
as one of them self-deadlocks. The callback logs are discarded: only
the final parameter state is of interest here. -/
def applyWrites (p : StringParam) : List String → Option StringParam
  | [] => some p
  | v :: rest =>
    match p.set_plain_value v with
    | none => none
    | some (_, p1, _) => applyWrites p1 rest

/-!
Interleaving model for concurrent writers (no callback configured; a
configured callback makes any effective write self-deadlock, see
`set_plain_value_spec`, so no such execution completes).

Each writer thread runs `set_plain_value(v)` as the source does it: a
first critical section that locks, clones and unlocks the cell (the
`self.value()` read), a local comparison deciding whether to write, and
— only if different — a second critical section that locks, overwrites
and unlocks. The mutex makes each critical section atomic, so an
execution is an interleaving of these atomic steps, chosen by a
schedule (a list of thread indices).
-/

/-- The control point of one writer thread. `ready`: before its read
critical section; `decided b`: read done, `b` says whether it will
write; `finished r`: call returned `r`. -/
inductive TState where
  | ready
  | decided (willWrite : Bool)
  | finished (result : Bool)
deriving DecidableEq, Repr

/-- Global configuration: the cell contents plus for each writer thread the
intended value and control point. -/
structure Config where
  value : String
  threads : List (String × TState)
deriving DecidableEq, Repr

/-- Advance one writer thread by one atomic step, given the current
cell contents; returns its new control point and, when this step is the
write critical section, the value stored. -/
def stepWriter (cur : String) : String × TState → (String × TState) × Option String
  | (v, .ready) => ((v, .decided (decide (cur ≠ v))), none)
  | (v, .decided true) => ((v, .finished true), some v)
  | (v, .decided false) => ((v, .finished false), none)
  | (v, .finished r) => ((v, .finished r), none)

/-- Advance thread `i` by one atomic step (no-op on an out-of-range
index or a finished thread). -/
def stepConfig (c : Config) (i : Nat) : Config :=
  match c.threads[i]? with
  | none => c
  | some t =>
    let r := stepWriter c.value t
    { value := r.2.getD c.value, threads := c.threads.set i r.1 }

/-- Run a schedule: an arbitrary interleaving of the atomic
steps of the threads. -/
def runSched (c : Config) : List Nat → Config
  | [] => c
  | i :: rest => runSched (stepConfig c i) rest

/-- Initial configuration: cell holds `init`, one `ready` writer per
intended value. -/
def initConfig (init : String) (vs : List String) : Config :=
  { value := init, threads := vs.map fun v => (v, TState.ready) }

/-- Every writer call has returned. -/
def allFinished (c : Config) : Bool :=
  c.threads.all fun t =>
    match t.2 with
    | .finished _ => true
    | _ => false

/-- Values the writer threads intend to write. -/
def threadsValues (c : Config) : List String := c.threads.map Prod.fst

/-- Per-thread invariant while no write has happened yet (the cell
still holds `init`): no thread has completed an effective write, and a
thread that decided not to write (or finished without writing) read
`init`, so its own value is `init`. -/
def okThread (init : String) : String × TState → Prop
  | (_, .ready) => True
  | (_, .decided true) => True
  | (v, .decided false) => v = init
  | (_, .finished true) => False
  | (v, .finished false) => v = init

/-- Reachability invariant of the interleaving model: the threads still
carry the original intended values `vs`, and either some write has
landed and the cell holds one of the writer values, or the cell still
holds `init` and every thread satisfies `okThread`. -/
def reachInv (init : String) (vs : List String) (c : Config) : Prop :=
  threadsValues c = vs ∧
    (c.value ∈ vs ∨ (c.value = init ∧ ∀ t ∈ c.threads, okThread init t))

/-! Characterization lemmas for the lock-threaded operations. -/

theorem unlockValue_self (p : StringParam) (h : p.locked = false) : unlockValue p = p := by
  cases p
  simp only [unlockValue]
  simp_all

theorem modulated_plain_value_of_unlocked (p : StringParam) (h : p.locked = false) :
    p.modulated_plain_value = some (p.value, p) := by
  simp [StringParam.modulated_plain_value, lockValue, h, unlockValue_self]
  cases p
  simp only [unlockValue]
  simp_all

theorem modulated_plain_value_of_locked (p : StringParam) (h : p.locked = true) :
    p.modulated_plain_value = none := by
  simp [StringParam.modulated_plain_value, lockValue, h]

theorem preview_plain_of_unlocked (p : StringParam) (x : Rat) (h : p.locked = false) :
    p.preview_plain x = some (p.value, p) := by
  simp [StringParam.preview_plain, lockValue, h]
  cases p
  simp only [unlockValue]
  simp_all

/-- Sequential characterization of `set_plain_value` starting from a
state that does not hold the value lock: equal values are a no-op
returning `false`; a differing value with no callback overwrites the
cell and returns `true`; a differing value with a callback present
self-deadlocks (the fresh read for the callback argument re-acquires
the mutex the call still holds). -/
theorem set_plain_value_spec (p : StringParam) (v : String) (h : p.locked = false) :
    p.set_plain_value v =
      if p.value = v then some (false, p, [])
      else
        match p.value_changed with
        | some _ => none
        | none => some (true, { p with value := v }, []) := by
  obtain ⟨pv, pl, pd, pf, pc, pn, pu, pvs, psv⟩ := p
  simp only at h
  subst h
  by_cases hv : pv = v
  · simp [StringParam.set_plain_value, modulated_plain_value_of_unlocked, hv]
  · simp only [StringParam.set_plain_value, modulated_plain_value_of_unlocked, hv,
      if_pos (by simp [hv] : pv ≠ v), if_neg hv]
    cases pc <;> simp [lockValue, unlockValue]

theorem set_plain_value_of_locked (p : StringParam) (v : String) (h : p.locked = true) :
    p.set_plain_value v = none := by
  simp [StringParam.set_plain_value, modulated_plain_value_of_locked, h]

/-- Every successful `set_plain_value` leaves the lock released. -/
theorem set_plain_value_unlocked (p : StringParam) (v : String) (r : Bool)
    (p1 : StringParam) (log : List String)
    (h : p.set_plain_value v = some (r, p1, log)) : p1.locked = false := by
  cases hl : p.locked
  · rw [set_plain_value_spec p v hl] at h
    by_cases hv : p.value = v
    · simp [hv] at h
      obtain ⟨-, h2, -⟩ := h
      subst h2
      exact hl
    · simp [hv] at h
      cases hc : p.value_changed <;> simp [hc] at h
      obtain ⟨-, h2, -⟩ := h
      subst h2
      simpa using hl
  · rw [set_plain_value_of_locked p v hl] at h
    exact absurd h (by simp)

/-- A successful `set_plain_value` never touches the `default` field. -/
theorem set_plain_value_default (p : StringParam) (v : String) (r : Bool)
    (p1 : StringParam) (log : List String)
    (h : p.set_plain_value v = some (r, p1, log)) : p1.default = p.default := by
  cases hl : p.locked
  · rw [set_plain_value_spec p v hl] at h
    by_cases hv : p.value = v
    · simp [hv] at h
      obtain ⟨-, h2, -⟩ := h
      subst h2
      rfl
    · simp [hv] at h
      cases hc : p.value_changed <;> simp [hc] at h
      obtain ⟨-, h2, -⟩ := h
      subst h2
      rfl
  · rw [set_plain_value_of_locked p v hl] at h
    exact absurd h (by simp)

/-- A single `set_plain_value` call invokes the callback at most once:
the invocation log of any completed call has length at most one. -/
theorem set_plain_value_log_short (p : StringParam) (v : String) (r : Bool)
    (p1 : StringParam) (log : List String)
    (h : p.set_plain_value v = some (r, p1, log)) : log.length ≤ 1 := by
  cases hl : p.locked
  · rw [set_plain_value_spec p v hl] at h
    by_cases hv : p.value = v
    · simp [hv] at h
      obtain ⟨-, -, h3⟩ := h
      subst h3
      simp
    · simp [hv] at h
      cases hc : p.value_changed <;> simp [hc] at h
      obtain ⟨-, -, h3⟩ := h
      subst h3
      simp
  · rw [set_plain_value_of_locked p v hl] at h
    exact absurd h (by simp)

/-! Claim theorems. -/

/-- C1: the claim says that with a change callback configured and a new
value different from the stored one, `set_plain_value` stores the
value, releases the value lock, then invokes the callback with a fresh
read, and returns `true`. The code instead evaluates the
fresh read for the callback — a second `lock()` of the same mutex — while the write
guard of the same call is still live, so the call self-deadlocks and
never returns: at the concrete failing input the embedded call yields
`none` (no normal completion), not a `true` result. -/
theorem set_plain_value_callback_deadlock :
    ((StringParam.new "nm" "a").with_callback (fun _ => ())).set_plain_value "b" = none := by
  rfl

/-- C2: if a first `set_plain_value v` completes (with any result),
then an immediately following `set_plain_value v` returns `false` and
invokes no callback, and across both calls the callback fires at most
once. -/
theorem set_plain_value_second_call_noop (p : StringParam) (v : String) (r : Bool)
    (p1 : StringParam) (log : List String)
    (h : p.set_plain_value v = some (r, p1, log)) :
    p1.set_plain_value v = some (false, p1, []) ∧ log.length + 0 ≤ 1 := by
  cases hl : p.locked
  · rw [set_plain_value_spec p v hl] at h
    by_cases hv : p.value = v
    · simp [hv] at h
      obtain ⟨-, h2, h3⟩ := h
      subst h2
      subst h3
      refine ⟨?_, by simp⟩
      rw [set_plain_value_spec p v hl, if_pos hv]
    · simp [hv] at h
      cases hc : p.value_changed <;> simp [hc] at h
      obtain ⟨-, h2, h3⟩ := h
      subst h2
      subst h3
      refine ⟨?_, by simp⟩
      rw [set_plain_value_spec _ v (by simpa using hl)]
      simp
  · rw [set_plain_value_of_locked p v hl] at h
    exact absurd h (by simp)

/-- C2 witness: a concrete first call that completes. -/
theorem set_plain_value_second_call_noop_witness :
    ({ StringParam.new "nm" "a" with value := "b" } : StringParam).set_plain_value "b" =
        some (false, { StringParam.new "nm" "a" with value := "b" }, []) ∧
      ([] : List String).length + 0 ≤ 1 :=
  set_plain_value_second_call_noop (StringParam.new "nm" "a") "b" true
    { StringParam.new "nm" "a" with value := "b" } [] rfl

/-- C3: after `set_plain_value v` returns `true`, an immediately
following `modulated_plain_value` (same thread, no intervening write)
returns exactly `v`. -/
theorem read_after_write (p : StringParam) (v : String) (p1 : StringParam)
    (log : List String) (h : p.set_plain_value v = some (true, p1, log)) :
    p1.modulated_plain_value = some (v, p1) := by
  cases hl : p.locked
  · rw [set_plain_value_spec p v hl] at h
    by_cases hv : p.value = v
    · simp [hv] at h
    · simp [hv] at h
      cases hc : p.value_changed <;> simp [hc] at h
      obtain ⟨h2, -⟩ := h
      subst h2
      rw [modulated_plain_value_of_unlocked _ (by simpa using hl)]
  · rw [set_plain_value_of_locked p v hl] at h
    exact absurd h (by simp)

/-- C3 witness: a concrete effective write followed by a read. -/
theorem read_after_write_witness :
    ({ StringParam.new "nm" "a" with value := "b" } : StringParam).modulated_plain_value =
      some ("b", { StringParam.new "nm" "a" with value := "b" }) :=
  read_after_write (StringParam.new "nm" "a") "b"
    { StringParam.new "nm" "a" with value := "b" } [] rfl

/-- C4: `preview_normalized` is the constant `0.0` for every plain
input, and `preview_plain` on any normalized `x` in `[0,1]` returns the
currently stored value, leaving the state unchanged — never a value
derived from `x`. -/
theorem degenerate_normalized_mapping (p : StringParam) (plain : String) (x : Rat)
    (hl : p.locked = false) (h0 : 0 ≤ x) (h1 : x ≤ 1) :
    p.preview_normalized plain = 0 ∧ p.preview_plain x = some (p.value, p) :=
  ⟨rfl, preview_plain_of_unlocked p x hl⟩

/-- C4 witness. -/
theorem degenerate_normalized_mapping_witness :
    (StringParam.new "nm" "hello").preview_normalized "z" = 0 ∧
      (StringParam.new "nm" "hello").preview_plain (1 / 2) =
        some ((StringParam.new "nm" "hello").value, StringParam.new "nm" "hello") :=
  degenerate_normalized_mapping (StringParam.new "nm" "hello") "z" (1 / 2) rfl
    (by norm_num) (by norm_num)

/-- C5: `default_plain_value` equals the default given to the constructor, and it
is unaffected by any sequence of subsequent `set_plain_value` calls:
writes mutate only the value cell, never the default field. -/
theorem default_value_immutable (n d : String) (vs : List String) (p1 : StringParam)
    (h : applyWrites (StringParam.new n d) vs = some p1) :
    (StringParam.new n d).default_plain_value = d ∧ p1.default_plain_value = d := by
  refine ⟨rfl, ?_⟩
  have key : ∀ (vs : List String) (p q : StringParam),
      applyWrites p vs = some q → q.default = p.default := by
    intro vs
    induction vs with
    | nil =>
      intro p q h
      simp [applyWrites] at h
      subst h
      rfl
    | cons v rest ih =>
      intro p q h
      unfold applyWrites at h
      cases hw : p.set_plain_value v with
      | none => rw [hw] at h; exact absurd h (by simp)
      | some out =>
        rw [hw] at h
        obtain ⟨r, p2, log⟩ := out
        simp only at h
        rw [ih p2 q h]
        exact set_plain_value_default p v r p2 log hw
  exact key vs (StringParam.new n d) p1 h

/-- C5 witness: one concrete effective write after construction. -/
theorem default_value_immutable_witness :
    (StringParam.new "nm" "a").default_plain_value = "a" ∧
      ({ StringParam.new "nm" "a" with value := "b" } : StringParam).default_plain_value = "a" :=
  default_value_immutable "nm" "a" ["b"]
    { StringParam.new "nm" "a" with value := "b" } rfl

/-- Each single builder call keeps the three flags set. -/
theorem applyBuilder_threeFlagsSet (p : StringParam) (s : BuilderStep)
    (h : threeFlagsSet p) : threeFlagsSet (applyBuilder p s) := by
  obtain ⟨h1, h2, h3⟩ := h
  cases s <;>
    simp_all [applyBuilder, threeFlagsSet, StringParam.with_callback,
      StringParam.with_unit, StringParam.with_value_to_string,
      StringParam.non_automatable, StringParam.hide, StringParam.hide_in_generic_ui,
      ParamFlags.insert, ParamFlags.union]

/-- C6: a freshly constructed `StringParam` has `NON_AUTOMATABLE`,
`HIDDEN` and `HIDE_IN_GENERIC_UI` all set, and any chain of builder
calls (which only insert flags or set non-flag fields) leaves all three
still set. -/
theorem default_flags_all_set (n d : String) (steps : List BuilderStep) :
    threeFlagsSet (applyBuilders (StringParam.new n d) steps) := by
  have key : ∀ (steps : List BuilderStep) (p : StringParam),
      threeFlagsSet p → threeFlagsSet (applyBuilders p steps) := by
    intro steps
    induction steps with
    | nil => intro p h; exact h
    | cons s rest ih =>
      intro p h
      exact ih (applyBuilder p s) (applyBuilder_threeFlagsSet p s h)
  exact key steps (StringParam.new n d) ⟨rfl, rfl, rfl⟩

/-- C7: with no custom formatter and unit dB, rendering the stored
value hello yields hellodB with the unit and hello without it, for any
normalized input. -/
theorem display_formatting_hello (p : StringParam) (x : Rat)
    (hf : p.value_to_string = none) (hu : p.unit = "dB") (hv : p.value = "hello")
    (hl : p.locked = false) :
    p.normalized_value_to_string x true = some ("hellodB", p) ∧
      p.normalized_value_to_string x false = some ("hello", p) := by
  unfold StringParam.normalized_value_to_string
  rw [preview_plain_of_unlocked p x hl, hv]
  constructor <;> simp [hf, hu]

/-- C7 witness. -/
theorem display_formatting_hello_witness :
    ((StringParam.new "nm" "hello").with_unit "dB").normalized_value_to_string 0 true =
        some ("hellodB", (StringParam.new "nm" "hello").with_unit "dB") ∧
      ((StringParam.new "nm" "hello").with_unit "dB").normalized_value_to_string 0 false =
        some ("hello", (StringParam.new "nm" "hello").with_unit "dB") :=
  display_formatting_hello ((StringParam.new "nm" "hello").with_unit "dB") 0
    rfl rfl rfl rfl

/-- C8: the unsupported operations answer neutrally rather than
failing: `modulate_value` returns `false` for every offset and leaves
the parameter untouched, and `string_to_normalized_value` returns
`None` for every input string; both are total (no panic on valid
input). -/
theorem unsupported_operations_neutral (p : StringParam) (offset : Rat) (s : String) :
    p.modulate_value offset = (false, p) ∧ p.string_to_normalized_value s = none :=
  ⟨rfl, rfl⟩

/-- C10: `set_normalized_value` can never effect a change: for every
normalized input it returns `false`, leaves the stored value unchanged
and invokes no callback, because `preview_plain` hands the current
stored value to the inner `set_plain_value`, whose equality check then
always takes the no-op branch. -/
theorem set_normalized_value_never_changes (p : StringParam) (x : Rat)
    (hl : p.locked = false) :
    p.set_normalized_value x = some (false, p, []) := by
  unfold StringParam.set_normalized_value
  rw [preview_plain_of_unlocked p x hl]
  simp only
  rw [set_plain_value_spec p p.value hl, if_pos rfl]

/-- C10 witness. -/
theorem set_normalized_value_never_changes_witness :
    (StringParam.new "nm" "a").set_normalized_value (1 / 2) =
      some (false, StringParam.new "nm" "a", []) :=
  set_normalized_value_never_changes (StringParam.new "nm" "a") (1 / 2) rfl

/-! Lemmas for the concurrent-writer interleaving model. -/

/-- A writer step never changes which value the thread intends to write. -/
theorem stepWriter_fst (cur : String) (t : String × TState) :
    (stepWriter cur t).1.1 = t.1 := by
  obtain ⟨v, st⟩ := t
  cases st with
  | ready => rfl
  | decided b => cases b <;> rfl
  | finished r => rfl

theorem map_fst_set_eq (l : List (String × TState)) (i : Nat) (t t' : String × TState)
    (hm : l[i]? = some t) (hfst : t'.1 = t.1) :
    (l.set i t').map Prod.fst = l.map Prod.fst := by
  induction l generalizing i with
  | nil => simp at hm
  | cons a l ih =>
    cases i with
    | zero =>
      simp only [List.getElem?_cons_zero, Option.some.injEq] at hm
      subst hm
      simp [List.set, hfst]
    | succ n =>
      simp only [List.getElem?_cons_succ] at hm
      simp [List.set, ih n hm]

theorem threadsValues_stepConfig (c : Config) (i : Nat) :
    threadsValues (stepConfig c i) = threadsValues c := by
  unfold stepConfig
  cases hm : c.threads[i]? with
  | none => rfl
  | some t =>
    simp only [threadsValues]
    exact map_fst_set_eq c.threads i t _ hm (stepWriter_fst c.value t)

theorem mem_threadsValues_of_mem (c : Config) (v : String) (st : TState)
    (h : (v, st) ∈ c.threads) : v ∈ threadsValues c :=
  List.mem_map.mpr ⟨(v, st), h, rfl⟩

/-- One interleaved step preserves the reachability invariant. -/
theorem stepConfig_reachInv (init : String) (vs : List String) (c : Config) (i : Nat)
    (h : reachInv init vs c) : reachInv init vs (stepConfig c i) := by
  obtain ⟨hTV, hdisj⟩ := h
  refine ⟨(threadsValues_stepConfig c i).trans hTV, ?_⟩
  cases hm : c.threads[i]? with
  | none =>
    unfold stepConfig
    rw [hm]
    exact hdisj
  | some t =>
    obtain ⟨v, st⟩ := t
    have hvmem : v ∈ vs :=
      hTV ▸ mem_threadsValues_of_mem c v st (List.getElem?_mem hm)
    unfold stepConfig
    rw [hm]
    cases st with
    | ready =>
      simp only [stepWriter, Option.getD]
      cases hdisj with
      | inl hval => exact Or.inl hval
      | inr hinit =>
        obtain ⟨hv0, hok⟩ := hinit
        refine Or.inr ⟨hv0, ?_⟩
        intro u hu
        rcases List.mem_or_eq_of_mem_set hu with hin | heq
        · exact hok u hin
        · subst heq
          cases hb : decide (c.value ≠ v) with
          | false =>
            have hcv : c.value = v := by simpa using of_decide_eq_false hb
            show okThread init (v, TState.decided false)
            exact hcv ▸ hv0
          | true => trivial
    | decided b =>
      cases b with
      | true =>
        simp only [stepWriter, Option.getD]
        exact Or.inl hvmem
      | false =>
        simp only [stepWriter, Option.getD]
        cases hdisj with
        | inl hval => exact Or.inl hval
        | inr hinit =>
          obtain ⟨hv0, hok⟩ := hinit
          refine Or.inr ⟨hv0, ?_⟩
          intro u hu
          rcases List.mem_or_eq_of_mem_set hu with hin | heq
          · exact hok u hin
          · subst heq
            have := hok (v, TState.decided false) (List.getElem?_mem hm)
            exact this
    | finished r =>
      simp only [stepWriter, Option.getD]
      cases hdisj with
      | inl hval => exact Or.inl hval
      | inr hinit =>
        obtain ⟨hv0, hok⟩ := hinit
        refine Or.inr ⟨hv0, ?_⟩
        intro u hu
        rcases List.mem_or_eq_of_mem_set hu with hin | heq
        · exact hok u hin
        · subst heq
          exact hok (v, TState.finished r) (List.getElem?_mem hm)

/-- Any schedule preserves the reachability invariant. -/
theorem runSched_reachInv (init : String) (vs : List String) (c : Config)
    (sched : List Nat) (h : reachInv init vs c) :
    reachInv init vs (runSched c sched) := by
  induction sched generalizing c with
  | nil => exact h
  | cons i rest ih => exact ih (stepConfig c i) (stepConfig_reachInv init vs c i h)

/-- The initial configuration satisfies the invariant. -/
theorem initConfig_reachInv (init : String) (vs : List String) :
    reachInv init vs (initConfig init vs) := by
  refine ⟨?_, Or.inr ⟨rfl, ?_⟩⟩
  · simp only [threadsValues, initConfig, List.map_map]
    exact List.map_id'' (fun _ => rfl) vs
  · intro t ht
    simp only [initConfig, List.mem_map] at ht
    obtain ⟨v, -, rfl⟩ := ht
    trivial

/-- When every writer has returned, the invariant pins the cell to one
of the written values. -/
theorem final_value_mem (init : String) (vs : List String) (c : Config)
    (hne : vs ≠ []) (hinv : reachInv init vs c) (hfin : allFinished c = true) :
    c.value ∈ vs := by
  obtain ⟨hTV, hdisj⟩ := hinv
  cases hdisj with
  | inl h => exact h
  | inr h =>
    obtain ⟨hv0, hok⟩ := h
    have hall : ∀ t ∈ c.threads, t.1 = init := by
      intro t ht
      have hfn := List.all_eq_true.mp hfin t ht
      obtain ⟨tv, tst⟩ := t
      cases tst with
      | ready => simp at hfn
      | decided b => simp at hfn
      | finished r =>
        cases r with
        | true => exact absurd (hok _ ht) (by simp [okThread])
        | false => exact hok _ ht
    cases vs with
    | nil => exact absurd rfl hne
    | cons v0 rest =>
      have hv0mem : v0 ∈ threadsValues c := by
        rw [hTV]
        exact List.mem_cons_self v0 rest
      obtain ⟨t, ht, hteq⟩ := List.mem_map.mp hv0mem
      have : v0 = init := hteq ▸ hall t ht
      rw [hv0, ← this]
      exact List.mem_cons_self v0 rest

/-- C9: for any interleaving (schedule) of N parallel writers that each
run `set_plain_value` with their own value, once every call has
returned, the cell holds exactly one of the N written values — never a
mixture, since every read and write of the cell is a whole-value
critical section under the mutex; and the change callback fires at most
once per call, hence at most N times across the N calls. -/
theorem concurrent_writers_one_of (init : String) (vs : List String) (sched : List Nat)
    (hne : vs ≠ [])
    (hfin : allFinished (runSched (initConfig init vs) sched) = true) :
    (runSched (initConfig init vs) sched).value ∈ vs ∧
      ∀ (p : StringParam) (v : String) (r : Bool) (p1 : StringParam) (log : List String),
        p.set_plain_value v = some (r, p1, log) → log.length ≤ 1 := by
  refine ⟨?_, fun p v r p1 log h => set_plain_value_log_short p v r p1 log h⟩
  exact final_value_mem init vs _ hne
    (runSched_reachInv init vs _ sched (initConfig_reachInv init vs)) hfin

/-- C9 witness: two writers, a fully interleaved schedule (both read
before either writes), every call returned, and the final value is one
of the two written values. -/
theorem concurrent_writers_one_of_witness :
    (runSched (initConfig "a" ["b", "c"]) [0, 1, 0, 1]).value ∈ (["b", "c"] : List String) :=
  (concurrent_writers_one_of "a" ["b", "c"] [0, 1, 0, 1] (by decide) (by decide)).1

end StringParams
